import Mathlib

/-!
Verification development for the Scraper_Project repository
(`app.py`, `scraper_products.py`, `scraper_competitor.py`).

Strings are modelled as `List Char`; Python text operations (strip, upper,
lower, whitespace collapsing, substring search) are embedded as executable
functions on character lists.  Network and browser effects are modelled by
explicit environments: a scrape attempt is a function from target and attempt
index to an optional record, and the browser automation is driven by a record
of Boolean outcomes for each UI step.
-/

namespace Scraper

abbrev Str := List Char

/-- Whitespace characters recognised by Python `str.split` / `str.strip`
(ASCII subset, which is all the scraper ever feeds them). -/
def wsChars : Str := [' ', '\t', '\n', '\r', '\x0b', '\x0c']

/-- Membership test of a character in a list of characters. -/
def charIn : Str → Char → Bool
  | [], _ => false
  | a :: rest, c => c = a || charIn rest c

def wsChar (c : Char) : Bool := charIn wsChars c

/-- Characters stripped from the end of an availability phrase by the
`re.sub(r"[.\s]+$", "", phrase)` post-processing step. -/
def trailChar (c : Char) : Bool := c = '.' || wsChar c

def digitChars : Str := ['0', '1', '2', '3', '4', '5', '6', '7', '8', '9']

def isDigitChar (c : Char) : Bool := charIn digitChars c

/-- Lookup of a character in an association table. -/
def lookupPair : List (Char × Char) → Char → Option Char
  | [], _ => none
  | (a, b) :: rest, c => if c = a then some b else lookupPair rest c

/-- Uppercase-to-lowercase table (ASCII letters, the range relevant to the
marketplace aliases and identifier patterns in the source). -/
def ucLcPairs : List (Char × Char) :=
  [('A', 'a'), ('B', 'b'), ('C', 'c'), ('D', 'd'), ('E', 'e'), ('F', 'f'),
   ('G', 'g'), ('H', 'h'), ('I', 'i'), ('J', 'j'), ('K', 'k'), ('L', 'l'),
   ('M', 'm'), ('N', 'n'), ('O', 'o'), ('P', 'p'), ('Q', 'q'), ('R', 'r'),
   ('S', 's'), ('T', 't'), ('U', 'u'), ('V', 'v'), ('W', 'w'), ('X', 'x'),
   ('Y', 'y'), ('Z', 'z')]

def lcUcPairs : List (Char × Char) := ucLcPairs.map (fun p => (p.2, p.1))

/-- Python `str.lower` on one character (ASCII model). -/
def lowerChar (c : Char) : Char := (lookupPair ucLcPairs c).getD c

/-- Python `str.upper` on one character (ASCII model). -/
def upperChar (c : Char) : Char := (lookupPair lcUcPairs c).getD c

def lowerStr (s : Str) : Str := s.map lowerChar

def upperStr (s : Str) : Str := s.map upperChar

/-- Python `str.strip()`: drop leading and trailing whitespace. -/
def pyStrip (s : Str) : Str :=
  ((s.dropWhile wsChar).reverse.dropWhile wsChar).reverse

/-- Words of a string under Python `str.split()` (split on whitespace runs,
empty pieces discarded).  `acc` holds the current word reversed. -/
def splitWsAcc : Str → Str → List Str
  | [], acc => if acc.isEmpty then [] else [acc.reverse]
  | c :: rest, acc =>
    if wsChar c then
      if acc.isEmpty then splitWsAcc rest [] else acc.reverse :: splitWsAcc rest []
    else splitWsAcc rest (c :: acc)

def wordsOf (s : Str) : List Str := splitWsAcc s []

def joinSpace : List Str → Str
  | [] => []
  | [w] => w
  | w :: ws => w ++ ' ' :: joinSpace ws

/-- Python `" ".join(s.split())`: collapse whitespace runs to single spaces
and trim the ends. -/
def collapseWs (s : Str) : Str := joinSpace (wordsOf s)

/-- Characters allowed after the `B0` prefix of an identifier
(`[A-Z0-9]` in the pattern `B0[A-Z0-9]{8}`). -/
def asinChar (c : Char) : Bool :=
  (lookupPair ucLcPairs c).isSome || isDigitChar c

/-- Full match of `re.fullmatch(r"B0[A-Z0-9]{8}", x)` from `app.py`. -/
def validAsin : Str → Bool
  | c1 :: c2 :: rest => c1 = 'B' && c2 = '0' && rest.length = 8 && rest.all asinChar
  | _ => false

/-- Embedding of `_norm_asin` (`app.py` lines 64-68): strip, uppercase, and
keep the token only when it fully matches the identifier pattern; otherwise
return the empty string. -/
def normAsin (t : Str) : Str :=
  let x := upperStr (pyStrip t)
  if validAsin x then x else []

/-! Tokenization of raw identifier input.  Both `run_products_scraper`
(`scraper_products.py` line 618) and `run_competitor_scraper`
(`scraper_competitor.py` line 361) compute
`[a.strip() for a in input.replace(",", " ").split() if a.strip()]`. -/

/-- Working set of identifiers built by `run_products_scraper` from its raw
input: commas become spaces, the text splits on whitespace, each token is
stripped and empty tokens are dropped.  No pattern validation is applied. -/
def productsAsinList (s : Str) : List Str :=
  (wordsOf (s.map (fun c => if c = ',' then ' ' else c))).filterMap
    (fun a => let b := pyStrip a; if b.isEmpty then none else some b)

/-- Seed identifier list of the `run_competitor` route (`app.py` lines
486-487): tokenize, uppercase each token, then keep only tokens fully
matching `B0[A-Z0-9]{8}`. -/
def competitorSeedAsins (raw : Str) : List Str :=
  ((productsAsinList raw).map upperStr).filter validAsin

/-- Competitor identifier list of the `run_competitor` route (`app.py` lines
493-497): uppercase and strip each cell of the `Competitor_ASIN` column, then
keep only tokens fully matching the pattern. -/
def competitorCompAsins (col : List Str) : List Str :=
  (col.map (fun a => pyStrip (upperStr a))).filter validAsin

/-- Lexicographic comparison of character lists (Python string sort order on
the code points the scraper handles). -/
def strLe : Str → Str → Bool
  | [], _ => true
  | _ :: _, [] => false
  | a :: as, b :: bs => if a = b then strLe as bs else decide (a < b)

def insertSorted (x : Str) : List Str → List Str
  | [] => [x]
  | y :: ys => if strLe x y then x :: y :: ys else y :: insertSorted x ys

def sortStr : List Str → List Str
  | [] => []
  | x :: xs => insertSorted x (sortStr xs)

/-- The `sorted(set(seed_asins) | set(comp_asins))` union of `app.py`
line 498. -/
def asinUnion (seeds comps : List Str) : List Str :=
  sortStr ((seeds ++ comps).dedup)

/-! The marketplace tables of `scraper_products.py` (lines 12-32). -/

def MARKETPLACES : List (Str × Str) :=
  [("Amazon India".data, "https://www.amazon.in/dp/".data),
   ("Amazon USA".data, "https://www.amazon.com/dp/".data),
   ("Amazon SG".data, "https://www.amazon.sg/dp/".data),
   ("Amazon AE".data, "https://www.amazon.ae/dp/".data),
   ("Amazon UK".data, "https://www.amazon.co.uk/dp/".data)]

def marketplaceAliases : List (Str × Str) :=
  [("india".data, "Amazon India".data), ("in".data, "Amazon India".data),
   ("us".data, "Amazon USA".data), ("usa".data, "Amazon USA".data),
   ("united states".data, "Amazon USA".data), ("america".data, "Amazon USA".data),
   ("sg".data, "Amazon SG".data), ("singapore".data, "Amazon SG".data),
   ("ae".data, "Amazon AE".data), ("uae".data, "Amazon AE".data),
   ("united arab emirates".data, "Amazon AE".data),
   ("uk".data, "Amazon UK".data), ("gb".data, "Amazon UK".data),
   ("great britain".data, "Amazon UK".data), ("united kingdom".data, "Amazon UK".data)]

/-- First-match lookup in a string association list (Python `dict.get` for the
static tables, whose keys are distinct). -/
def lookupStr (l : List (Str × Str)) (k : Str) : Option Str :=
  (l.find? (fun p => p.1 == k)).map (fun p => p.2)

/-- Embedding of `_resolve_marketplace` (`scraper_products.py` lines
597-611): empty input resolves to nothing; otherwise the stripped, lowercased
input is looked up in the alias table and the canonical pair is returned. -/
def resolveMarketplace (userInput : Option Str) : Option (Str × Str) :=
  match userInput with
  | none => none
  | some s =>
    if s.isEmpty then none
    else
      match lookupStr marketplaceAliases (lowerStr (pyStrip s)) with
      | none => none
      | some mpName =>
        match lookupStr MARKETPLACES mpName with
        | none => none
        | some baseUrl => some (mpName, baseUrl)

/-- Target list iterated by `run_products_scraper` (lines 623-630): the single
resolved target, or every configured marketplace in configuration order when
the selector is absent or unrecognized. -/
def specificMarketplaces (m : Option Str) : List (Str × Str) :=
  match resolveMarketplace m with
  | some t => [t]
  | none => MARKETPLACES

/-! The competitor scraper marketplace handling (`scraper_competitor.py`
lines 44-60 and 361-365). -/

def competitorMarketplaceMap : List (Str × Str) :=
  [("india".data, "amazon.in".data), ("in".data, "amazon.in".data),
   ("us".data, "amazon.com".data), ("usa".data, "amazon.com".data),
   ("america".data, "amazon.com".data),
   ("uk".data, "amazon.co.uk".data), ("united kingdom".data, "amazon.co.uk".data),
   ("de".data, "amazon.de".data), ("germany".data, "amazon.de".data),
   ("fr".data, "amazon.fr".data), ("france".data, "amazon.fr".data),
   ("it".data, "amazon.it".data), ("italy".data, "amazon.it".data),
   ("es".data, "amazon.es".data), ("spain".data, "amazon.es".data),
   ("ca".data, "amazon.ca".data), ("canada".data, "amazon.ca".data),
   ("mx".data, "amazon.com.mx".data), ("mexico".data, "amazon.com.mx".data),
   ("nl".data, "amazon.nl".data), ("netherlands".data, "amazon.nl".data),
   ("jp".data, "amazon.co.jp".data), ("japan".data, "amazon.co.jp".data),
   ("au".data, "amazon.com.au".data), ("australia".data, "amazon.com.au".data),
   ("ae".data, "amazon.ae".data), ("uae".data, "amazon.ae".data),
   ("br".data, "amazon.com.br".data), ("brazil".data, "amazon.com.br".data),
   ("sa".data, "amazon.sa".data), ("saudi".data, "amazon.sa".data)]

/-- The marketplace value computed by `run_competitor_scraper` (line 363):
`marketplace_map.get(marketplace_input, marketplace_input_raw.strip())` where
`marketplace_input` is the stripped, lowercased raw selector. -/
def competitorMarketplaceValue (raw : Str) : Str :=
  (lookupStr competitorMarketplaceMap (lowerStr (pyStrip raw))).getD (pyStrip raw)

/-- The guard at `scraper_competitor.py` lines 364-365: an empty marketplace
value raises `ValueError` (modelled as `none`) before any browser work;
otherwise the value is used for the run. -/
def competitorMarketplaceGate (raw : Str) : Option Str :=
  let v := competitorMarketplaceValue raw
  if v.isEmpty then none else some v

/-! The per-identifier fetch loop of `run_products_scraper`
(`scraper_products.py` lines 632-676).

A product record or seller record is an association list of field names to
values.  A scrape attempt is modelled by an environment
`scrape : Target → Nat → Option (Rec × List Rec)`: `scrape t k` is the
outcome of attempt number `k` against target `t`, where `none` covers all
transient failures (request exception, non-200 status, and missing title all
leave `data = None` in the source, exceptions being caught by the
`try/except` in the loop body). -/

abbrev Rec := List (Str × Str)

abbrev Target := Str × Str

def MAX_RETRIES : Nat := 5

/-- The `while retries < MAX_RETRIES and data is None` loop body: attempt,
stop on success, otherwise increment `retries` and continue.  Returns the
attempt indices performed and the final result. -/
def attemptLoop (scrape : Nat → Option (Rec × List Rec)) :
    Nat → Nat → List Nat × Option (Rec × List Rec)
  | 0, _ => ([], none)
  | Nat.succ budget, k =>
    match scrape k with
    | some r => ([k], some r)
    | none =>
      let rest := attemptLoop scrape budget (k + 1)
      (k :: rest.1, rest.2)

/-- Embedding of the per-identifier fetch (lines 636-661).  The `for` loop
over `specific_marketplaces` only assigns `data = None; sellers = [];
retries = 0` in its body because the retry `while` is dedented outside it, so
after the `for` finishes the loop variables hold the LAST target and the
`while` retries only that one.  The first component records, in order, every
`(target, attempt)` pair actually contacted. -/
def fetchOneAsin (targets : List Target)
    (scrape : Target → Nat → Option (Rec × List Rec)) :
    List (Target × Nat) × Option (Rec × List Rec) :=
  match targets.getLast? with
  | none => ([], none)
  | some t =>
    let r := attemptLoop (scrape t) MAX_RETRIES 0
    (r.1.map (fun k => (t, k)), r.2)

def SENTINEL : Str := "N/A".data

/-- The synthetic NotFound row appended when no record was obtained
(`scraper_products.py` lines 663-676), field for field. -/
def notFoundRow (asin : Str) : Rec :=
  [("ASIN".data, asin), ("Marketplace".data, SENTINEL),
   ("Product Title".data, "Not Found".data),
   ("Rating".data, SENTINEL), ("Total Reviews".data, SENTINEL),
   ("Social Bought".data, SENTINEL),
   ("Amazons_Choice_Text".data, "unavailable".data),
   ("Deal_Badge_Text".data, "unavailable".data),
   ("Best_Seller_Text".data, "unavailable".data),
   ("Discount %".data, SENTINEL), ("Offer Price".data, SENTINEL),
   ("Price per Unit".data, SENTINEL), ("MRP".data, SENTINEL),
   ("Brand".data, SENTINEL), ("Model Number".data, SENTINEL),
   ("Country of Origin".data, SENTINEL), ("Customer Reviews".data, SENTINEL),
   ("Best Sellers Rank".data, SENTINEL), ("Manufacturer".data, SENTINEL),
   ("Packer".data, SENTINEL), ("Availability".data, SENTINEL),
   ("Delivery info".data, SENTINEL), ("Ships from".data, SENTINEL),
   ("Sold by".data, SENTINEL), ("Gift options".data, SENTINEL)]

/-- Fields of the NotFound row whose value is the sentinel (everything except
`ASIN`, `Product Title` and the three badge-text fields). -/
def nfSentinelFields : List Str :=
  ["Marketplace".data, "Rating".data, "Total Reviews".data,
   "Social Bought".data, "Discount %".data, "Offer Price".data,
   "Price per Unit".data, "MRP".data, "Brand".data, "Model Number".data,
   "Country of Origin".data, "Customer Reviews".data,
   "Best Sellers Rank".data, "Manufacturer".data, "Packer".data,
   "Availability".data, "Delivery info".data, "Ships from".data,
   "Sold by".data, "Gift options".data]

/-- Rows appended to `all_main` and `all_buybox` for one identifier: the
found record and its sellers, or the synthetic NotFound row. -/
def processAsin (targets : List Target)
    (scrape : Target → Nat → Option (Rec × List Rec)) (asin : Str) :
    List Rec × List Rec :=
  match (fetchOneAsin targets scrape).2 with
  | some (d, s) => ([d], s)
  | none => ([notFoundRow asin], [])

/-- Concrete targets and environment exhibiting the retry-loop dedent bug:
every target would succeed on its first attempt. -/
def targetIndia : Target := ("Amazon India".data, "https://www.amazon.in/dp/".data)

def targetUSA : Target := ("Amazon USA".data, "https://www.amazon.com/dp/".data)

def envEveryTargetSucceeds : Target → Nat → Option (Rec × List Rec) :=
  fun t _ => some ([("ASIN".data, "B0ABCDEFGH".data), ("Marketplace".data, t.1)], [])

/-! The output workbook assembly (`scraper_products.py` lines 678-718):
`pd.DataFrame(rows).reindex(columns=..., fill_value="N/A")`. -/

/-- The fixed `final_columns` list for the Products sheet (lines 681-692). -/
def finalColumns : List Str :=
  ["ASIN".data, "Marketplace".data, "Product Title".data, "Rating".data,
   "Total Reviews".data, "Social Bought".data, "Amazons_Choice_Text".data,
   "Deal_Badge_Text".data, "Best_Seller_Text".data, "Discount %".data,
   "Offer Price".data, "Price per Unit".data, "MRP".data, "Brand".data,
   "Model Number".data, "Country of Origin".data, "Customer Reviews".data,
   "Best Sellers Rank".data, "Manufacturer".data, "Packer".data,
   "Availability".data, "Delivery info".data, "Ships from".data,
   "Sold by".data, "Gift options".data]

/-- The fixed `final_cols` list for the OtherSellers sheet (lines 699-706),
with `Sold By` ahead of `Marketplace`. -/
def otherSellersColumns : List Str :=
  ["ASIN".data, "Sold By".data, "Marketplace".data, "Offer Price".data,
   "Discount %".data, "MRP".data, "Ships From".data, "Delivery Info".data,
   "Condition".data, "Rating".data, "Seller Performance".data]

/-- Value of a field in a record (`none` models a pandas NaN cell). -/
def lookupField (r : Rec) (c : Str) : Option Str :=
  (r.find? (fun p => p.1 == c)).map (fun p => p.2)

/-- Whether any record of the frame supplies a column: `reindex` fills with
`fill_value` exactly the columns absent from the whole frame. -/
def dfHasColumn (rows : List Rec) (c : Str) : Bool :=
  rows.any (fun r => r.any (fun p => p.1 == c))

/-- One rendered sheet row after `reindex(columns=cols, fill_value="N/A")`:
the fixed column list in order, each cell either the record value (NaN when
the record lacks a column some other record has) or the sentinel fill. -/
def renderRow (rows : List Rec) (cols : List Str) (r : Rec) :
    List (Str × Option Str) :=
  cols.map (fun c => (c, if dfHasColumn rows c then lookupField r c else some SENTINEL))

def reindexDf (cols : List Str) (rows : List Rec) : List (List (Str × Option Str)) :=
  rows.map (renderRow rows cols)

def productsSheetRows (allMain : List Rec) : List (List (Str × Option Str)) :=
  reindexDf finalColumns allMain

def otherSellersSheetRows (allBuybox : List Rec) : List (List (Str × Option Str)) :=
  reindexDf otherSellersColumns allBuybox

/-! The Search_ASIN annotation (`app.py` lines 77-120). -/

/-- Embedding of `_build_search_map_from_comp_df`: normalize both columns of
each Competitors row, drop rows where either side fails validation, and build
the `dict(zip(...))` mapping Competitor_ASIN to Search_ASIN.  Each input pair
is `(Competitor_ASIN cell, Search_ASIN cell)`. -/
def buildSearchMap (rows : List (Str × Str)) : List (Str × Str) :=
  (rows.map (fun p => (normAsin p.1, normAsin p.2))).filter
    (fun p => !p.1.isEmpty && !p.2.isEmpty)

/-- Python `dict` built by `dict(zip(keys, vals))`: a later pair with the
same key overwrites an earlier one, so lookup returns the last match. -/
def dictGet (m : List (Str × Str)) (k : Str) : Option Str :=
  ((m.filter (fun p => p.1 == k)).getLast?).map (fun p => p.2)

/-- Embedding of the per-row rule of `_add_search_asin_to_amazon_frames`
(lines 109-114): normalize the row identifier, look it up in the search map,
fall back to the identifier itself when it is a seed, otherwise leave the
annotation missing. -/
def attachSearchAsin (m : List (Str × Str)) (seeds : List Str) (cell : Str) :
    Option Str :=
  match dictGet m (normAsin cell) with
  | some v =>
    if !v.isEmpty then some v
    else if seeds.contains (normAsin cell) then some (normAsin cell) else none
  | none =>
    if seeds.contains (normAsin cell) then some (normAsin cell) else none

/-! The competitor discovery run (`scraper_competitor.py` lines 341-674).

Browser state is abstracted into Boolean outcomes per UI step of one
identifier iteration, read directly off the control flow of the per-identifier
loop (lines 469-658): the pre-iteration soft reset (always caught internally)
with its hard-reload fallback at line 477 (uncaught, aborts on failure), the
input-box wait at line 480 (uncaught `TimeoutException`, aborts on failure),
the Get Competitors wait with its reload-and-retry (lines 496-522, inner
`except Exception` skips the identifier), and the results wait with its
reload-and-retry (lines 524-560, proceeding best-effort when the page already
contains the identifier, skipping on a failed second attempt).  Session-level
failures are the login block (lines 388-441) and the initial marketplace
selection (lines 456-464), both of which re-raise after `driver.quit()`. -/

structure SessionEnv where
  loginOk : Bool
  marketplaceSelectOk : Bool

structure IterEnv where
  softResetOk : Bool
  hardReloadPreOk : Bool
  inputLocateOk : Bool
  buttonFound : Bool
  buttonRetryReloadOk : Bool
  buttonRetryOk : Bool
  awaitOk : Bool
  bodyHasAsin : Bool
  awaitRetryReloadOk : Bool
  awaitRetryOk : Bool
  cards : List Str

inductive RunError where
  | loginFailure
  | marketplaceSelectionFailure
  | hardReloadFailure
  | inputLocateTimeout
deriving DecidableEq

/-- Outcome of the results-wait phase for one identifier: harvested cards,
a skip (`ok none`), or an uncaught raise. -/
def awaitPhase (e : IterEnv) : Except RunError (Option (List Str)) :=
  if e.awaitOk then Except.ok (some e.cards)
  else if e.bodyHasAsin then Except.ok (some e.cards)
  else if !e.awaitRetryReloadOk then Except.error RunError.hardReloadFailure
  else if e.awaitRetryOk then Except.ok (some e.cards)
  else Except.ok none

/-- Outcome of one identifier iteration of the search-and-harvest loop. -/
def iterResult (e : IterEnv) : Except RunError (Option (List Str)) :=
  if !e.softResetOk && !e.hardReloadPreOk then Except.error RunError.hardReloadFailure
  else if !e.inputLocateOk then Except.error RunError.inputLocateTimeout
  else if e.buttonFound then awaitPhase e
  else if !e.buttonRetryReloadOk then Except.error RunError.hardReloadFailure
  else if e.buttonRetryOk then awaitPhase e
  else Except.ok none

/-- Rows appended to `competitor_results` for one identifier. -/
def tagRecords (asin : Str) (cards : List Str) : List (Str × Str) :=
  cards.map (fun c => (asin, c))

/-- The identifier loop: a raise aborts the run; a skip contributes nothing
and the loop continues; harvested cards are appended in order. -/
def runIterations : List (Str × IterEnv) → Except RunError (List (Str × Str))
  | [] => Except.ok []
  | (a, e) :: rest =>
    match iterResult e with
    | Except.error err => Except.error err
    | Except.ok none => runIterations rest
    | Except.ok (some cards) =>
      match runIterations rest with
      | Except.error err => Except.error err
      | Except.ok rs => Except.ok (tagRecords a cards ++ rs)

/-- The whole run: login, marketplace selection, then the identifier loop;
an `ok` result models reaching the workbook-writing epilogue (which always
writes, header-only when no rows were harvested). -/
def runCompetitor (s : SessionEnv) (iters : List (Str × IterEnv)) :
    Except RunError (List (Str × Str)) :=
  if !s.loginOk then Except.error RunError.loginFailure
  else if !s.marketplaceSelectOk then Except.error RunError.marketplaceSelectionFailure
  else runIterations iters

/-- Failure mode: the Get Competitors control is missing and stays missing
after the one hard-reload retry (the retry block itself not raising). -/
def skipOnButton (e : IterEnv) : Prop :=
  (e.softResetOk = true ∨ e.hardReloadPreOk = true) ∧ e.inputLocateOk = true ∧
  e.buttonFound = false ∧ e.buttonRetryReloadOk = true ∧ e.buttonRetryOk = false

/-- Failure mode: the results never stabilize, the page does not contain the
identifier, and the one hard-reload retry also fails to load. -/
def skipOnAwait (e : IterEnv) : Prop :=
  (e.softResetOk = true ∨ e.hardReloadPreOk = true) ∧ e.inputLocateOk = true ∧
  (e.buttonFound = true ∨ (e.buttonRetryReloadOk = true ∧ e.buttonRetryOk = true)) ∧
  e.awaitOk = false ∧ e.bodyHasAsin = false ∧ e.awaitRetryReloadOk = true ∧
  e.awaitRetryOk = false

def sessionGood : SessionEnv := ⟨true, true⟩

/-- Iteration whose identifier input box never appears (the wait at line 480
raises an uncaught `TimeoutException`); every other step would succeed. -/
def iterInputDead : IterEnv :=
  ⟨true, true, false, true, true, true, true, true, true, true, []⟩

/-- Iteration whose Get Competitors control is missing before and after the
one hard-reload retry; every other step would succeed. -/
def iterButtonDead : IterEnv :=
  ⟨true, true, true, false, true, false, true, true, true, true, []⟩

/-! Availability extraction (`scraper_products.py` lines 152-209).

`_match_phrase` collapses whitespace, lowercases, searches the patterns
`currently unavailable`, `out of stock`, `only\s+\d+\s+left(?:\s+in\s+stock)?`
and `in stock` in that order, slices the matched span out of the
original-case text, strips it, drops trailing dots/whitespace and classifies
the phrase into a canonical form.  Since the searched text is
whitespace-collapsed, each `\s+` in the patterns matches exactly one space. -/

/-- Strip a literal prefix, returning the remainder on success. -/
def stripPre (p l : Str) : Option Str :=
  if p.isPrefixOf l then some (l.drop p.length) else none

/-- Leftmost occurrence of a literal substring (`re.search` of a literal). -/
def findSub (needle : Str) : Str → Option Nat
  | [] => if needle.isEmpty then some 0 else none
  | c :: rest =>
    if needle.isPrefixOf (c :: rest) then some 0
    else (findSub needle rest).map (fun i => i + 1)

def containsSub (needle hay : Str) : Bool := (findSub needle hay).isSome

/-- Match of `only\s+\d+\s+left(?:\s+in\s+stock)?` at the head of `l`,
returning the greedy match length. -/
def onlyAt (l : Str) : Option Nat :=
  match stripPre "only ".data l with
  | none => none
  | some r1 =>
    if (r1.takeWhile isDigitChar).isEmpty then none
    else
      match stripPre " left".data (r1.drop (r1.takeWhile isDigitChar).length) with
      | none => none
      | some r3 =>
        if " in stock".data.isPrefixOf r3 then
          some (10 + (r1.takeWhile isDigitChar).length + 9)
        else some (10 + (r1.takeWhile isDigitChar).length)

/-- Leftmost match span of the only-left pattern. -/
def findOnly : Str → Option (Nat × Nat)
  | [] => none
  | c :: rest =>
    match onlyAt (c :: rest) with
    | some len => some (0, len)
    | none => (findOnly rest).map (fun p => (p.1 + 1, p.2 + 1))

/-- Match of the classification recheck `only\s+\d+\s+left` at the head. -/
def onlyCoreAt (l : Str) : Option Nat :=
  match stripPre "only ".data l with
  | none => none
  | some r1 =>
    if (r1.takeWhile isDigitChar).isEmpty then none
    else if " left".data.isPrefixOf (r1.drop (r1.takeWhile isDigitChar).length) then
      some (10 + (r1.takeWhile isDigitChar).length)
    else none

def hasOnlyCore : Str → Bool
  | [] => false
  | c :: rest => (onlyCoreAt (c :: rest)).isSome || hasOnlyCore rest

/-- The `re.search(r"\d+", phrase)` extraction: first maximal digit run. -/
def firstDigitRun (l : Str) : Str :=
  (l.dropWhile (fun c => !isDigitChar c)).takeWhile isDigitChar

/-- The `re.sub(r"[.\s]+$", "", phrase)` trailing cleanup. -/
def stripTrail (l : Str) : Str := (l.reverse.dropWhile trailChar).reverse

def sliceOf (text : Str) (s len : Nat) : Str := (text.drop s).take len

/-- The classification block of `_match_phrase` (lines 186-195), checking the
canonical patterns case-insensitively on the matched phrase. -/
def classify (phrase : Str) : Str :=
  if hasOnlyCore (lowerStr phrase) then
    "Only ".data ++ firstDigitRun phrase ++ " left in stock".data
  else if containsSub "currently unavailable".data (lowerStr phrase) then
    "Currently unavailable".data
  else if containsSub "out of stock".data (lowerStr phrase) then
    "Out of stock".data
  else if containsSub "in stock".data (lowerStr phrase) then
    "In stock".data
  else phrase

/-- Embedding of `_match_phrase` (lines 175-196). -/
def matchPhrase (src : Str) : Option Str :=
  if src.isEmpty then none
  else
    match findSub "currently unavailable".data (lowerStr (collapseWs src)) with
    | some i => some (classify (stripTrail (pyStrip (sliceOf (collapseWs src) i 21))))
    | none =>
      match findSub "out of stock".data (lowerStr (collapseWs src)) with
      | some i => some (classify (stripTrail (pyStrip (sliceOf (collapseWs src) i 12))))
      | none =>
        match findOnly (lowerStr (collapseWs src)) with
        | some se =>
          some (classify (stripTrail (pyStrip (sliceOf (collapseWs src) se.1 (se.2 - se.1)))))
        | none =>
          match findSub "in stock".data (lowerStr (collapseWs src)) with
          | some i => some (classify (stripTrail (pyStrip (sliceOf (collapseWs src) i 8))))
          | none => none

/-- A fetched document, as seen by `_extract_availability_exact`: the text of
each of the four structured selector nodes (in selector order, `none` when
`select_one` finds nothing) and the whole-page text. -/
structure Doc where
  nodes : List (Option Str)
  pageText : Str

/-- The structured-selectors loop (lines 198-205): first node whose text
yields a phrase. -/
def firstNodePhrase : List (Option Str) → Option Str
  | [] => none
  | none :: rest => firstNodePhrase rest
  | some t :: rest =>
    match matchPhrase t with
    | some p => some p
    | none => firstNodePhrase rest

/-- Embedding of `_extract_availability_exact`: structured nodes first,
whole-page text as last resort. -/
def extractAvailabilityExact (d : Doc) : Option Str :=
  match firstNodePhrase d.nodes with
  | some p => some p
  | none => matchPhrase d.pageText

/-- The four canonical availability phrases of the extractor. -/
def isCanonicalAvail (s : Str) : Prop :=
  s = "In stock".data ∨ s = "Out of stock".data ∨
  s = "Currently unavailable".data ∨
  ∃ n : Str, ¬ n = [] ∧ n.all isDigitChar = true ∧
    s = "Only ".data ++ n ++ " left in stock".data

end Scraper

namespace Scraper

/-! Helper lemmas on characters and lists. -/

theorem lookupPair_mem {l : List (Char × Char)} {c u : Char}
    (h : lookupPair l c = some u) : (c, u) ∈ l := by
  induction l with
  | nil => simp [lookupPair] at h
  | cons p rest ih =>
    obtain ⟨a, b⟩ := p
    by_cases hc : c = a
    · subst hc
      simp [lookupPair] at h
      simp [h]
    · simp [lookupPair, hc] at h
      exact List.mem_cons_of_mem _ (ih h)

theorem wsChar_lowerChar (c : Char) : wsChar (lowerChar c) = wsChar c := by
  unfold lowerChar
  cases h : lookupPair ucLcPairs c with
  | none => rfl
  | some u =>
    have hm := lookupPair_mem h
    have hall : ∀ p ∈ ucLcPairs, wsChar p.1 = false ∧ wsChar p.2 = false := by decide
    have := hall _ hm
    simp [Option.getD, this.1, this.2]

theorem trailChar_lowerChar (c : Char) : trailChar (lowerChar c) = trailChar c := by
  unfold lowerChar
  cases h : lookupPair ucLcPairs c with
  | none => rfl
  | some u =>
    have hm := lookupPair_mem h
    have hall : ∀ p ∈ ucLcPairs, trailChar p.1 = false ∧ trailChar p.2 = false := by decide
    have := hall _ hm
    simp [Option.getD, this.1, this.2]

theorem isDigitChar_lowerChar (c : Char) : isDigitChar (lowerChar c) = isDigitChar c := by
  unfold lowerChar
  cases h : lookupPair ucLcPairs c with
  | none => rfl
  | some u =>
    have hm := lookupPair_mem h
    have hall : ∀ p ∈ ucLcPairs, isDigitChar p.1 = false ∧ isDigitChar p.2 = false := by decide
    have := hall _ hm
    simp [Option.getD, this.1, this.2]

theorem charIn_mem {l : Str} {c : Char} (h : charIn l c = true) : c ∈ l := by
  induction l with
  | nil => simp [charIn] at h
  | cons a rest ih =>
    rcases Bool.or_eq_true _ _ |>.mp h with h1 | h1
    · have : c = a := by simpa using h1
      simp [this]
    · exact List.mem_cons_of_mem _ (ih h1)

theorem upperChar_of_asinChar {c : Char} (h : asinChar c = true) : upperChar c = c := by
  unfold upperChar
  cases hl : lookupPair lcUcPairs c with
  | none => rfl
  | some u =>
    exfalso
    have hm := lookupPair_mem hl
    have hall : ∀ p ∈ lcUcPairs, asinChar p.1 = false := by decide
    have := hall _ hm
    simp [h] at this

theorem wsChar_of_asinChar_false {c : Char} (h : asinChar c = true) : wsChar c = false := by
  unfold asinChar at h
  rcases Bool.or_eq_true _ _ |>.mp h with h1 | h1
  · cases hl : lookupPair ucLcPairs c with
    | none => rw [hl] at h1; simp at h1
    | some u =>
      have hm := lookupPair_mem hl
      have hall : ∀ p ∈ ucLcPairs, wsChar p.1 = false := by decide
      exact hall _ hm
  · have hmem : c ∈ digitChars := charIn_mem h1
    have hall : ∀ c ∈ digitChars, wsChar c = false := by decide
    exact hall _ hmem

theorem dropWhile_eq_self_of_all {p : Char → Bool} {l : Str}
    (h : ∀ c ∈ l, p c = false) : l.dropWhile p = l := by
  cases l with
  | nil => rfl
  | cons c rest =>
    have := h c (List.mem_cons_self c rest)
    simp [List.dropWhile, this]

theorem map_eq_self_of_all {f : Char → Char} {l : Str}
    (h : ∀ c ∈ l, f c = c) : l.map f = l := by
  induction l with
  | nil => rfl
  | cons c rest ih =>
    simp only [List.map_cons]
    rw [h c (List.mem_cons_self c rest), ih (fun x hx => h x (List.mem_cons_of_mem _ hx))]

theorem pyStrip_eq_self_of_all {l : Str} (h : ∀ c ∈ l, wsChar c = false) :
    pyStrip l = l := by
  unfold pyStrip
  rw [dropWhile_eq_self_of_all h]
  rw [dropWhile_eq_self_of_all (fun c hc => h c (List.mem_reverse.mp hc))]
  exact List.reverse_reverse l

/-- Every character of a valid identifier is a non-whitespace character that
uppercasing leaves unchanged. -/
theorem validAsin_chars {x : Str} (h : validAsin x = true) :
    ∀ c ∈ x, wsChar c = false ∧ upperChar c = c := by
  cases x with
  | nil => simp [validAsin] at h
  | cons c1 t1 =>
    cases t1 with
    | nil => simp [validAsin] at h
    | cons c2 rest =>
      simp only [validAsin, Bool.and_eq_true, decide_eq_true_eq] at h
      obtain ⟨⟨⟨h1, h2⟩, _⟩, h4⟩ := h
      subst h1; subst h2
      intro c hc
      rcases List.mem_cons.mp hc with hceq | hc2
      · subst hceq; exact ⟨by decide, by decide⟩
      · rcases List.mem_cons.mp hc2 with hceq | hc3
        · subst hceq; exact ⟨by decide, by decide⟩
        · have hc4 : asinChar c = true := List.all_eq_true.mp h4 c hc3
          exact ⟨wsChar_of_asinChar_false hc4, upperChar_of_asinChar hc4⟩

theorem normAsin_fixpoint {x : Str} (h : validAsin x = true) : normAsin x = x := by
  have hchars := validAsin_chars h
  unfold normAsin
  have hstrip : pyStrip x = x := pyStrip_eq_self_of_all (fun c hc => (hchars c hc).1)
  have hupper : upperStr x = x := map_eq_self_of_all (fun c hc => (hchars c hc).2)
  rw [hstrip, hupper, if_pos h]

/-- C9.  Identifier normalization `_norm_asin` is idempotent, and its result
is either the empty string or a token fully matching `B0[A-Z0-9]{8}`. -/
theorem normAsin_idempotent_and_shape (t : Str) :
    normAsin (normAsin t) = normAsin t ∧
    (normAsin t = [] ∨ validAsin (normAsin t) = true) := by
  constructor
  · by_cases h : validAsin (upperStr (pyStrip t)) = true
    · have h1 : normAsin t = upperStr (pyStrip t) := by
        unfold normAsin; rw [if_pos h]
      rw [h1, normAsin_fixpoint h]
    · have h1 : normAsin t = [] := by
        unfold normAsin; rw [if_neg h]
      rw [h1]
      rfl
  · unfold normAsin
    by_cases h : validAsin (upperStr (pyStrip t)) = true
    · right; rw [if_pos h]; exact h
    · left; rw [if_neg h]

/-! Lemmas for sorting, union membership and table lookup. -/

theorem mem_insertSorted {a x : Str} {l : List Str} :
    a ∈ insertSorted x l ↔ a = x ∨ a ∈ l := by
  induction l with
  | nil => simp [insertSorted]
  | cons y ys ih =>
    unfold insertSorted
    by_cases h : strLe x y = true
    · simp [h]
    · simp only [if_neg h, List.mem_cons, ih]
      tauto

theorem mem_sortStr {a : Str} {l : List Str} : a ∈ sortStr l ↔ a ∈ l := by
  induction l with
  | nil => simp [sortStr]
  | cons x xs ih =>
    unfold sortStr
    rw [mem_insertSorted, ih]
    simp

theorem lookupStr_mem {l : List (Str × Str)} {k v : Str}
    (h : lookupStr l k = some v) : (k, v) ∈ l := by
  unfold lookupStr at h
  cases hf : l.find? (fun p => p.1 == k) with
  | none => rw [hf] at h; simp at h
  | some p =>
    rw [hf] at h
    have hp := List.find?_some hf
    have hmem := List.mem_of_find?_eq_some hf
    obtain ⟨a, b⟩ := p
    have hk : a = k := by simpa using hp
    have hv : b = v := by simpa using h
    subst hk; subst hv
    exact hmem

theorem lowerChar_idem (c : Char) : lowerChar (lowerChar c) = lowerChar c := by
  cases h : lookupPair ucLcPairs c with
  | none =>
    have h1 : lowerChar c = c := by unfold lowerChar; rw [h]; rfl
    rw [h1]; exact h1
  | some u =>
    have h1 : lowerChar c = u := by unfold lowerChar; rw [h]; rfl
    have hm := lookupPair_mem h
    have hall : ∀ p ∈ ucLcPairs, lookupPair ucLcPairs p.2 = none := by decide
    have h2 : lowerChar u = u := by unfold lowerChar; rw [hall _ hm]; rfl
    rw [h1, h2]

theorem dropWhile_map_lower (l : Str) :
    (l.map lowerChar).dropWhile wsChar = (l.dropWhile wsChar).map lowerChar := by
  induction l with
  | nil => rfl
  | cons c rest ih =>
    simp only [List.map_cons, List.dropWhile]
    rw [wsChar_lowerChar c]
    by_cases h : wsChar c = true
    · simp [h, ih]
    · simp only [Bool.not_eq_true] at h
      simp [h]

theorem pyStrip_map_lower (l : Str) :
    pyStrip (l.map lowerChar) = (pyStrip l).map lowerChar := by
  unfold pyStrip
  rw [dropWhile_map_lower, ← List.map_reverse, dropWhile_map_lower, List.map_reverse]

theorem lowerStr_idem (l : Str) : lowerStr (lowerStr l) = lowerStr l := by
  unfold lowerStr
  rw [List.map_map]
  exact List.map_congr_left (fun c _ => lowerChar_idem c)

/-! C4 theorems: identifier validation at the public entry points. -/

/-- C4 counterexample.  The working set built by `run_products_scraper` from
the raw input contains the token `hello`, which does not match the identifier
pattern: `run_products_scraper` applies no validation to its tokens. -/
theorem productsAsinList_accepts_invalid_token :
    "hello".data ∈ productsAsinList "hello B0ABCDEFGH".data ∧
    validAsin "hello".data = false := by decide

/-- C4 (amended).  The `run_competitor` route filters all three of its
working sets (seed identifiers, competitor identifiers, and their union) down
to tokens matching `B0[A-Z0-9]{8}`; `run_products_scraper` by contrast places
every nonempty comma/space-separated token in its working set unvalidated. -/
theorem competitor_route_working_sets_valid (raw : Str) (col : List Str) (a : Str) :
    (a ∈ competitorSeedAsins raw → validAsin a = true) ∧
    (a ∈ competitorCompAsins col → validAsin a = true) ∧
    (a ∈ asinUnion (competitorSeedAsins raw) (competitorCompAsins col) →
      validAsin a = true) := by
  refine ⟨fun h => ?_, fun h => ?_, fun h => ?_⟩
  · exact List.of_mem_filter h
  · exact List.of_mem_filter h
  · unfold asinUnion at h
    have h2 := List.mem_dedup.mp (mem_sortStr.mp h)
    rcases List.mem_append.mp h2 with h3 | h3
    · exact List.of_mem_filter h3
    · exact List.of_mem_filter h3

/-- Witness for C4 (amended) at a concrete raw input and competitor column. -/
theorem competitor_route_working_sets_valid_witness :
    ("B0ABCDEFGH".data ∈ competitorSeedAsins " b0abcdefgh, junk ".data) ∧
    validAsin "B0ABCDEFGH".data = true ∧
    ("B0XYZ12345".data ∈ asinUnion (competitorSeedAsins " b0abcdefgh, junk ".data)
        (competitorCompAsins [" b0xyz12345".data])) ∧
    validAsin "B0XYZ12345".data = true :=
  ⟨by decide,
   (competitor_route_working_sets_valid " b0abcdefgh, junk ".data [] "B0ABCDEFGH".data).1
     (by decide),
   by decide,
   (competitor_route_working_sets_valid " b0abcdefgh, junk ".data
       [" b0xyz12345".data] "B0XYZ12345".data).2.2 (by decide)⟩

/-! C7 theorem: marketplace selector resolution and fallback. -/

/-- C7.  Marketplace selector resolution is case-insensitive (lowercasing the
selector does not change the result), a successful resolution yields a
canonical pair from the configured table and makes it the single target, and
an empty or unrecognized selector makes the target list the full configured
marketplace list in configuration order. -/
theorem marketplace_resolution (s : Str) (t : Str × Str) :
    resolveMarketplace (some (lowerStr s)) = resolveMarketplace (some s) ∧
    (resolveMarketplace (some s) = some t →
      t ∈ MARKETPLACES ∧ specificMarketplaces (some s) = [t]) ∧
    (resolveMarketplace (some s) = none →
      specificMarketplaces (some s) = MARKETPLACES) ∧
    specificMarketplaces none = MARKETPLACES := by
  refine ⟨?_, fun h => ?_, fun h => ?_, rfl⟩
  · have hkey : lowerStr (pyStrip (lowerStr s)) = lowerStr (pyStrip s) := by
      unfold lowerStr
      rw [pyStrip_map_lower, List.map_map]
      exact List.map_congr_left (fun x _ => lowerChar_idem x)
    have hemp : (lowerStr s).isEmpty = s.isEmpty := by cases s <;> rfl
    simp only [resolveMarketplace]
    rw [hemp, hkey]
  · constructor
    · simp only [resolveMarketplace] at h
      by_cases he : s.isEmpty = true
      · rw [if_pos he] at h; simp at h
      · rw [if_neg he] at h
        cases h1 : lookupStr marketplaceAliases (lowerStr (pyStrip s)) with
        | none => rw [h1] at h; simp at h
        | some mpName =>
          rw [h1] at h
          have h' : (match lookupStr MARKETPLACES mpName with
              | none => none
              | some baseUrl => some (mpName, baseUrl)) = some t := h
          cases h2 : lookupStr MARKETPLACES mpName with
          | none => rw [h2] at h'; simp at h'
          | some baseUrl =>
            rw [h2] at h'
            simp only [Option.some_inj] at h'
            rw [← h']
            exact lookupStr_mem h2
    · unfold specificMarketplaces
      rw [h]
  · unfold specificMarketplaces
    rw [h]

/-- Witness for C7: the alias `InDiA` resolves case-insensitively to the
canonical India target, and the unrecognized selector `zz` falls back to the
full configured target list. -/
theorem marketplace_resolution_witness :
    resolveMarketplace (some "InDiA".data) =
      some ("Amazon India".data, "https://www.amazon.in/dp/".data) ∧
    ("Amazon India".data, "https://www.amazon.in/dp/".data) ∈ MARKETPLACES ∧
    specificMarketplaces (some "zz".data) = MARKETPLACES :=
  ⟨by decide,
   ((marketplace_resolution "InDiA".data
       ("Amazon India".data, "https://www.amazon.in/dp/".data)).2.1 (by decide)).1,
   (marketplace_resolution "zz".data ([], [])).2.2.1 (by decide)⟩

/-! C10 theorem: the competitor scraper marketplace gate. -/

/-- C10.  In `run_competitor_scraper`, an empty or whitespace-only selector
is rejected (the `ValueError` raise, modelled as `none`) before any browser
work, while a non-empty selector matching no alias is not rejected and its
trimmed raw text is used verbatim as the marketplace domain for the run. -/
theorem competitor_marketplace_gate_spec (raw : Str) :
    (pyStrip raw = [] → competitorMarketplaceGate raw = none) ∧
    (pyStrip raw ≠ [] →
      lookupStr competitorMarketplaceMap (lowerStr (pyStrip raw)) = none →
      competitorMarketplaceGate raw = some (pyStrip raw)) := by
  constructor
  · intro h
    unfold competitorMarketplaceGate competitorMarketplaceValue
    rw [h]
    decide
  · intro h1 h2
    unfold competitorMarketplaceGate competitorMarketplaceValue
    rw [h2]
    simp only [Option.getD_none]
    have : (pyStrip raw).isEmpty = false := by
      cases hp : pyStrip raw with
      | nil => exact absurd hp h1
      | cons c rest => rfl
    rw [this]
    simp

/-- Witness for C10: a whitespace-only selector is rejected, and the
unrecognized selector `my.custom.domain` is used verbatim after trimming. -/
theorem competitor_marketplace_gate_spec_witness :
    competitorMarketplaceGate "   ".data = none ∧
    competitorMarketplaceGate " my.custom.domain ".data =
      some "my.custom.domain".data :=
  ⟨(competitor_marketplace_gate_spec "   ".data).1 (by decide),
   (competitor_marketplace_gate_spec " my.custom.domain ".data).2
     (by decide) (by decide)⟩

/-! C1 theorem: the per-identifier fetch loop. -/

/-- C1.  Evaluation of the fetch loop at an identifier for which every target
in the two-element list [India, USA] would succeed immediately: because the
retry `while` sits outside the `for` over targets, the only contact made is
attempt 0 against the LAST target (USA), the returned record is the USA
record, and the first target is never contacted at all — contradicting the
claimed first-target-wins order and the docstring of `run_products_scraper`
itself. -/
theorem fetch_contacts_only_last_target :
    fetchOneAsin [targetIndia, targetUSA] envEveryTargetSucceeds =
      ([(targetUSA, 0)],
       some ([("ASIN".data, "B0ABCDEFGH".data),
              ("Marketplace".data, "Amazon USA".data)], [])) ∧
    (fetchOneAsin [targetIndia, targetUSA] envEveryTargetSucceeds).1.map
        (fun p => p.1) = [targetUSA] := by
  constructor
  · rfl
  · rfl

/-! C2 theorems: the synthetic NotFound row. -/

theorem attemptLoop_none {scrape : Nat → Option (Rec × List Rec)}
    (h : ∀ k, scrape k = none) (b k : Nat) : (attemptLoop scrape b k).2 = none := by
  induction b generalizing k with
  | zero => rfl
  | succ b ih =>
    unfold attemptLoop
    rw [h k]
    exact ih (k + 1)

theorem fetchOneAsin_none {targets : List Target}
    {scrape : Target → Nat → Option (Rec × List Rec)}
    (h : ∀ t k, scrape t k = none) : (fetchOneAsin targets scrape).2 = none := by
  unfold fetchOneAsin
  cases hl : targets.getLast? with
  | none => rfl
  | some t => exact attemptLoop_none (h t) MAX_RETRIES 0

/-- C2 counterexample.  Not every field of the synthetic NotFound row is the
sentinel: `Product Title` is the literal `Not Found` and the three badge
fields are `unavailable`. -/
theorem notFoundRow_not_all_sentinel :
    lookupField (notFoundRow "B0ABCDEFGH".data) "Product Title".data =
      some "Not Found".data ∧
    lookupField (notFoundRow "B0ABCDEFGH".data) "Amazons_Choice_Text".data =
      some "unavailable".data ∧
    ¬ "Not Found".data = SENTINEL := by decide

/-- C2 (amended).  When every attempt against every target fails, the loop
appends exactly the synthetic NotFound row (and no seller rows) for that
identifier, never raising: its `Marketplace` is the sentinel, its `ASIN` is
the identifier, `Product Title` is `Not Found`, the three badge-text fields
are `unavailable`, and every other field is the sentinel. -/
theorem notFound_on_exhaustion (targets : List Target)
    (scrape : Target → Nat → Option (Rec × List Rec)) (asin : Str)
    (hfail : ∀ t k, scrape t k = none) :
    processAsin targets scrape asin = ([notFoundRow asin], []) ∧
    lookupField (notFoundRow asin) "Marketplace".data = some SENTINEL ∧
    lookupField (notFoundRow asin) "ASIN".data = some asin ∧
    lookupField (notFoundRow asin) "Product Title".data = some "Not Found".data ∧
    lookupField (notFoundRow asin) "Amazons_Choice_Text".data = some "unavailable".data ∧
    lookupField (notFoundRow asin) "Deal_Badge_Text".data = some "unavailable".data ∧
    lookupField (notFoundRow asin) "Best_Seller_Text".data = some "unavailable".data ∧
    (∀ c ∈ nfSentinelFields, lookupField (notFoundRow asin) c = some SENTINEL) := by
  refine ⟨?_, rfl, rfl, rfl, rfl, rfl, rfl, ?_⟩
  · unfold processAsin
    rw [fetchOneAsin_none hfail]
  · intro c hc
    fin_cases hc <;> rfl

/-- Witness for C2 at the concrete two-target list and the always-failing
environment. -/
theorem notFound_on_exhaustion_witness :
    processAsin [targetIndia, targetUSA] (fun _ _ => none) "B0ABCDEFGH".data =
      ([notFoundRow "B0ABCDEFGH".data], []) ∧
    lookupField (notFoundRow "B0ABCDEFGH".data) "Marketplace".data = some SENTINEL :=
  ⟨(notFound_on_exhaustion [targetIndia, targetUSA] (fun _ _ => none)
      "B0ABCDEFGH".data (fun _ _ => rfl)).1,
   (notFound_on_exhaustion [targetIndia, targetUSA] (fun _ _ => none)
      "B0ABCDEFGH".data (fun _ _ => rfl)).2.1⟩

/-! C3 theorems: fixed sheet schemas and sentinel fill. -/

/-- C3 counterexample.  The Products sheet schema has 25 columns, not 23 (the
OtherSellers schema does have 11). -/
theorem finalColumns_count :
    finalColumns.length = 25 ∧ ¬ finalColumns.length = 23 ∧
    otherSellersColumns.length = 11 := by decide

theorem renderRow_keys (rows : List Rec) (cols : List Str) (r : Rec) :
    (renderRow rows cols r).map (fun p => p.1) = cols := by
  unfold renderRow
  induction cols with
  | nil => rfl
  | cons c cs ih =>
    simp only [List.map_cons]
    rw [ih]

/-- C3 (amended).  Every emitted Products row carries exactly the fixed
25-column schema in order and every emitted OtherSellers row the fixed
11-column schema in order, whatever fields the records populated; a column
supplied by no record is filled with the literal sentinel in every row. -/
theorem sheet_schema_and_fill (rows : List Rec) (r : Rec) (c : Str) :
    (∀ row ∈ productsSheetRows rows, row.map (fun p => p.1) = finalColumns) ∧
    (∀ row ∈ otherSellersSheetRows rows, row.map (fun p => p.1) = otherSellersColumns) ∧
    (c ∈ finalColumns → dfHasColumn rows c = false →
      (c, some SENTINEL) ∈ renderRow rows finalColumns r) ∧
    (c ∈ otherSellersColumns → dfHasColumn rows c = false →
      (c, some SENTINEL) ∈ renderRow rows otherSellersColumns r) := by
  refine ⟨?_, ?_, fun hc hdf => ?_, fun hc hdf => ?_⟩
  · intro row hrow
    obtain ⟨r0, _, hr0⟩ := List.mem_map.mp hrow
    rw [← hr0]
    exact renderRow_keys rows finalColumns r0
  · intro row hrow
    obtain ⟨r0, _, hr0⟩ := List.mem_map.mp hrow
    rw [← hr0]
    exact renderRow_keys rows otherSellersColumns r0
  · exact List.mem_map.mpr ⟨c, hc, by rw [hdf]; simp⟩
  · exact List.mem_map.mpr ⟨c, hc, by rw [hdf]; simp⟩

/-- Witness for C3 at a record populating only its `ASIN` field. -/
theorem sheet_schema_and_fill_witness :
    ("Product Title".data, some SENTINEL) ∈
      renderRow [[("ASIN".data, "B0ABCDEFGH".data)]] finalColumns
        [("ASIN".data, "B0ABCDEFGH".data)] ∧
    (∀ row ∈ productsSheetRows [[("ASIN".data, "B0ABCDEFGH".data)]],
      row.map (fun p => p.1) = finalColumns) :=
  ⟨(sheet_schema_and_fill [[("ASIN".data, "B0ABCDEFGH".data)]]
      [("ASIN".data, "B0ABCDEFGH".data)] "Product Title".data).2.2.1
      (by decide) (by decide),
   (sheet_schema_and_fill [[("ASIN".data, "B0ABCDEFGH".data)]]
      [("ASIN".data, "B0ABCDEFGH".data)] "Product Title".data).1⟩

/-! C6 theorems: the Search_ASIN annotation. -/

theorem mem_of_getLastOpt {α : Type} {l : List α} {a : α}
    (h : l.getLast? = some a) : a ∈ l := by
  induction l with
  | nil => simp at h
  | cons x xs ih =>
    cases xs with
    | nil =>
      simp [List.getLast?] at h
      simp [h]
    | cons y ys =>
      rw [List.getLast?_cons_cons] at h
      exact List.mem_cons_of_mem _ (ih h)

theorem dictGet_buildSearchMap_ne_empty {rows : List (Str × Str)} {k v : Str}
    (h : dictGet (buildSearchMap rows) k = some v) : v.isEmpty = false := by
  unfold dictGet at h
  cases hl : ((buildSearchMap rows).filter (fun p => p.1 == k)).getLast? with
  | none => rw [hl] at h; simp at h
  | some p =>
    rw [hl] at h
    have hmem := List.mem_filter.mp (mem_of_getLastOpt hl)
    have hmem2 := List.mem_filter.mp hmem.1
    have hpred : (!p.1.isEmpty && !p.2.isEmpty) = true := hmem2.2
    have hv : p.2 = v := by simpa using h
    rw [← hv]
    have := (Bool.and_eq_true _ _).mp hpred
    simpa using this.2

/-- C6.  The Search_ASIN annotation of a Products/OtherSellers row resolves
the normalized row identifier through the competitor-to-seed map built from
the Competitors sheet, falls back to the identifier itself when it is a seed,
and is missing otherwise. -/
theorem searchAsin_resolution (rows : List (Str × Str)) (seeds : List Str)
    (cell : Str) :
    (∀ v, dictGet (buildSearchMap rows) (normAsin cell) = some v →
      attachSearchAsin (buildSearchMap rows) seeds cell = some v) ∧
    (dictGet (buildSearchMap rows) (normAsin cell) = none →
      seeds.contains (normAsin cell) = true →
      attachSearchAsin (buildSearchMap rows) seeds cell = some (normAsin cell)) ∧
    (dictGet (buildSearchMap rows) (normAsin cell) = none →
      seeds.contains (normAsin cell) = false →
      attachSearchAsin (buildSearchMap rows) seeds cell = none) := by
  refine ⟨fun v h => ?_, fun h hs => ?_, fun h hs => ?_⟩
  · unfold attachSearchAsin
    rw [h]
    simp [dictGet_buildSearchMap_ne_empty h]
  · unfold attachSearchAsin
    rw [h, hs]
    simp
  · unfold attachSearchAsin
    rw [h, hs]
    simp

/-- Witness for C6: the end-to-end scenario with seed `B0ABCDEFGH`
discovering competitor `B0XYZ12345` annotates both Products rows with
Search_ASIN = `B0ABCDEFGH`. -/
theorem searchAsin_resolution_witness :
    attachSearchAsin (buildSearchMap [("B0XYZ12345".data, "B0ABCDEFGH".data)])
      ["B0ABCDEFGH".data] "B0ABCDEFGH".data = some "B0ABCDEFGH".data ∧
    attachSearchAsin (buildSearchMap [("B0XYZ12345".data, "B0ABCDEFGH".data)])
      ["B0ABCDEFGH".data] "B0XYZ12345".data = some "B0ABCDEFGH".data :=
  ⟨by
    have := (searchAsin_resolution [("B0XYZ12345".data, "B0ABCDEFGH".data)]
      ["B0ABCDEFGH".data] "B0ABCDEFGH".data).2.1 (by decide) (by decide)
    simpa using this,
   (searchAsin_resolution [("B0XYZ12345".data, "B0ABCDEFGH".data)]
      ["B0ABCDEFGH".data] "B0XYZ12345".data).1 "B0ABCDEFGH".data (by decide)⟩

/-! C8 theorems: failure isolation in the competitor run. -/

theorem awaitPhase_skip {e : IterEnv} (haw : e.awaitOk = false)
    (hbody : e.bodyHasAsin = false) (harr : e.awaitRetryReloadOk = true)
    (haro : e.awaitRetryOk = false) : awaitPhase e = Except.ok none := by
  unfold awaitPhase
  simp [haw, hbody, harr, haro]

theorem iterResult_skip {e : IterEnv} (h : skipOnButton e ∨ skipOnAwait e) :
    iterResult e = Except.ok none := by
  rcases h with ⟨hsr, hin, hbf, hbr, hbo⟩ | ⟨hsr, hin, hbf, haw, hbody, harr, haro⟩
  · unfold iterResult
    rcases hsr with h1 | h1 <;> simp [h1, hin, hbf, hbr, hbo]
  · have hap := awaitPhase_skip haw hbody harr haro
    unfold iterResult
    rcases hbf with h2 | h2
    · rcases hsr with h1 | h1 <;> simp [h1, hin, h2, hap]
    · rcases hsr with h1 | h1 <;> simp [h1, hin, h2.1, h2.2, hap]

theorem runIterations_skip (pre post : List (Str × IterEnv)) (a : Str)
    (e : IterEnv) (h : iterResult e = Except.ok none) :
    runIterations (pre ++ (a, e) :: post) = runIterations (pre ++ post) := by
  induction pre with
  | nil =>
    simp only [List.nil_append, runIterations]
    rw [h]
  | cons p rest ih =>
    obtain ⟨a0, e0⟩ := p
    simp only [List.cons_append, runIterations, List.append_eq]
    rw [ih]

/-- C8 counterexample.  A per-identifier failure that is neither a login nor
a marketplace-selection failure aborts the whole run: when the identifier
input box never appears inside an iteration, the wait at line 480 raises an
uncaught `TimeoutException` and no workbook is written, refuting the claim
that only session-level failures abort. -/
theorem competitor_abort_not_session_level :
    runCompetitor sessionGood [("B0ABCDEFGH".data, iterInputDead)] =
      Except.error RunError.inputLocateTimeout ∧
    ¬ RunError.inputLocateTimeout = RunError.loginFailure ∧
    ¬ RunError.inputLocateTimeout = RunError.marketplaceSelectionFailure :=
  ⟨rfl, by decide, by decide⟩

/-- C8 (amended).  The two recovered per-identifier failure modes (missing
Get Competitors control after one hard-reload retry; results never
stabilizing after one hard-reload retry with the page not containing the
identifier) only skip that identifier: the run over the remaining identifiers
is unchanged and the workbook is still written.  Login failure and
marketplace-selection failure abort the run by raising.  These are however
not the only aborts: an uncaught failure while locating the identifier input
box, or a raising hard reload outside the retry blocks, also aborts. -/
theorem competitor_failure_isolation (s : SessionEnv)
    (pre post : List (Str × IterEnv)) (a : Str) (e : IterEnv)
    (iters : List (Str × IterEnv)) :
    ((skipOnButton e ∨ skipOnAwait e) →
      runCompetitor s (pre ++ (a, e) :: post) = runCompetitor s (pre ++ post)) ∧
    (s.loginOk = false → runCompetitor s iters = Except.error RunError.loginFailure) ∧
    (s.loginOk = true → s.marketplaceSelectOk = false →
      runCompetitor s iters = Except.error RunError.marketplaceSelectionFailure) := by
  refine ⟨fun h => ?_, fun h => ?_, fun h1 h2 => ?_⟩
  · unfold runCompetitor
    by_cases hl : s.loginOk
    · by_cases hm : s.marketplaceSelectOk
      · simp [hl, hm, runIterations_skip pre post a e (iterResult_skip h)]
      · simp [hl, hm]
    · simp [hl]
  · unfold runCompetitor
    simp [h]
  · unfold runCompetitor
    simp [h1, h2]

/-- Witness for C8: a skipped identifier leaves the run equal to the run
without it, and a failed login aborts with the login error. -/
theorem competitor_failure_isolation_witness :
    runCompetitor sessionGood [("B0AAAAAAAA".data, iterButtonDead)] =
      runCompetitor sessionGood [] ∧
    runCompetitor ⟨false, true⟩ [] = Except.error RunError.loginFailure :=
  ⟨(competitor_failure_isolation sessionGood [] [] "B0AAAAAAAA".data
      iterButtonDead []).1 (Or.inl ⟨Or.inl rfl, rfl, rfl, rfl, rfl⟩),
   (competitor_failure_isolation ⟨false, true⟩ [] [] "B0AAAAAAAA".data
      iterButtonDead []).2.1 rfl⟩

/-! C5 lemmas: list and string infrastructure for the availability proof. -/

theorem findSub_isPre {needle : Str} : ∀ {hay : Str} {i : Nat},
    findSub needle hay = some i → needle.isPrefixOf (hay.drop i) = true := by
  intro hay
  induction hay with
  | nil =>
    intro i h
    unfold findSub at h
    by_cases hn : needle.isEmpty
    · have : needle = [] := by simpa [List.isEmpty_iff] using hn
      simp [this]
    · simp [hn] at h
  | cons c rest ih =>
    intro i h
    unfold findSub at h
    by_cases hp : needle.isPrefixOf (c :: rest) = true
    · rw [if_pos hp] at h
      have : i = 0 := by simpa using h.symm
      subst this
      simpa using hp
    · rw [if_neg hp] at h
      cases hf : findSub needle rest with
      | none => rw [hf] at h; simp at h
      | some j =>
        rw [hf] at h
        have hij : j + 1 = i := by simpa using h
        subst hij
        simpa using ih hf

theorem findSub_slice {needle hay : Str} {i : Nat}
    (h : findSub needle hay = some i) : sliceOf hay i needle.length = needle := by
  have hpre : needle <+: hay.drop i := List.isPrefixOf_iff_prefix.mp (findSub_isPre h)
  unfold sliceOf
  exact (List.prefix_iff_eq_take.mp hpre).symm

theorem sliceOf_map (f : Char → Char) (l : Str) (i k : Nat) :
    sliceOf (l.map f) i k = (sliceOf l i k).map f := by
  unfold sliceOf
  rw [← List.map_drop, ← List.map_take]

theorem head?_append_left {a : Str} (b : Str) (h : ¬ a = []) :
    (a ++ b).head? = a.head? := by
  cases a with
  | nil => exact absurd rfl h
  | cons c t => rfl

theorem getLast?_append_right (a : Str) {b : Str} (h : ¬ b = []) :
    (a ++ b).getLast? = b.getLast? := by
  rw [← List.head?_reverse, ← List.head?_reverse, List.reverse_append]
  exact head?_append_left a.reverse (by simpa using h)

theorem getLast?_map_eq (f : Char → Char) (l : Str) :
    (l.map f).getLast? = l.getLast?.map f := by
  rw [← List.head?_reverse, ← List.map_reverse, List.head?_map, List.head?_reverse]

theorem dropWhile_noop_head {p : Char → Bool} {l : Str}
    (h : ∀ c, l.head? = some c → p c = false) : l.dropWhile p = l := by
  cases l with
  | nil => rfl
  | cons c t =>
    have := h c rfl
    simp [List.dropWhile, this]

theorem pyStrip_noop {l : Str}
    (h1 : ∀ c, l.head? = some c → wsChar c = false)
    (h2 : ∀ c, l.getLast? = some c → wsChar c = false) : pyStrip l = l := by
  unfold pyStrip
  rw [dropWhile_noop_head h1]
  rw [dropWhile_noop_head (fun c hc => h2 c (by rwa [List.head?_reverse] at hc))]
  exact List.reverse_reverse l

theorem stripTrail_noop {l : Str}
    (h : ∀ c, l.getLast? = some c → trailChar c = false) : stripTrail l = l := by
  unfold stripTrail
  rw [dropWhile_noop_head (fun c hc => h c (by rwa [List.head?_reverse] at hc))]
  exact List.reverse_reverse l

theorem wsChar_of_trailChar_false {c : Char} (h : trailChar c = false) :
    wsChar c = false := by
  unfold trailChar at h
  exact (Bool.or_eq_false_iff.mp h).2

/-- When the lowercased phrase is known and neither starts with whitespace
nor ends in a dot or whitespace, the strip and trailing-cleanup steps of
`_match_phrase` leave the phrase unchanged. -/
theorem phrase_strip_noop {l lit : Str} (hl : lowerStr l = lit)
    (hh : lit.head?.all (fun c => !wsChar c) = true)
    (hg : lit.getLast?.all (fun c => !trailChar c) = true) :
    stripTrail (pyStrip l) = l := by
  have hhead : ∀ c, l.head? = some c → wsChar c = false := by
    intro c hc
    have : lit.head? = some (lowerChar c) := by
      rw [← hl]
      unfold lowerStr
      rw [List.head?_map, hc]
      rfl
    rw [this] at hh
    have : wsChar (lowerChar c) = false := by simpa [Option.all] using hh
    rwa [wsChar_lowerChar] at this
  have hlast : ∀ c, l.getLast? = some c → trailChar c = false := by
    intro c hc
    have : lit.getLast? = some (lowerChar c) := by
      rw [← hl]
      unfold lowerStr
      rw [getLast?_map_eq, hc]
      rfl
    rw [this] at hg
    have : trailChar (lowerChar c) = false := by simpa [Option.all] using hg
    rwa [trailChar_lowerChar] at this
  rw [pyStrip_noop hhead (fun c hc => wsChar_of_trailChar_false (hlast c hc))]
  exact stripTrail_noop hlast

theorem takeWhile_append_of_all {p : Char → Bool} {a b : Str}
    (ha : a.all p = true) (hb : ∀ c, b.head? = some c → p c = false) :
    (a ++ b).takeWhile p = a := by
  induction a with
  | nil =>
    cases b with
    | nil => rfl
    | cons c t =>
      have := hb c rfl
      simp [List.takeWhile, this]
  | cons c t ih =>
    have hall := List.all_eq_true.mp ha
    have hc : p c = true := hall c (List.mem_cons_self c t)
    have ih2 := ih (List.all_eq_true.mpr (fun x hx => hall x (List.mem_cons_of_mem _ hx)))
    simp [List.takeWhile_cons, hc, ih2]

theorem dropWhile_append_of_all {p : Char → Bool} {a : Str} (b : Str)
    (h : a.all p = true) : (a ++ b).dropWhile p = b.dropWhile p := by
  induction a with
  | nil => rfl
  | cons c t ih =>
    have hall := List.all_eq_true.mp h
    have hc : p c = true := hall c (List.mem_cons_self c t)
    have ih2 := ih (List.all_eq_true.mpr (fun x hx => hall x (List.mem_cons_of_mem _ hx)))
    simp [List.dropWhile_cons, hc, ih2]

theorem takeWhile_map_comm {f : Char → Char} {p : Char → Bool}
    (hp : ∀ c, p (f c) = p c) (l : Str) :
    (l.map f).takeWhile p = (l.takeWhile p).map f := by
  induction l with
  | nil => rfl
  | cons c t ih =>
    simp only [List.map_cons, List.takeWhile_cons, hp c]
    by_cases h : p c = true
    · simp [h, ih]
    · simp only [Bool.not_eq_true] at h
      simp [h]

theorem dropWhile_map_comm {f : Char → Char} {p : Char → Bool}
    (hp : ∀ c, p (f c) = p c) (l : Str) :
    (l.map f).dropWhile p = (l.dropWhile p).map f := by
  induction l with
  | nil => rfl
  | cons c t ih =>
    simp only [List.map_cons, List.dropWhile_cons, hp c]
    by_cases h : p c = true
    · simp [h, ih]
    · simp only [Bool.not_eq_true] at h
      simp [h]

theorem firstDigitRun_map_lower (l : Str) :
    firstDigitRun (lowerStr l) = lowerStr (firstDigitRun l) := by
  unfold firstDigitRun lowerStr
  rw [dropWhile_map_comm (fun c => by rw [isDigitChar_lowerChar]) l]
  rw [takeWhile_map_comm (fun c => by rw [isDigitChar_lowerChar]) (l.dropWhile _)]

theorem all_takeWhile_pred (p : Char → Bool) (l : Str) :
    (l.takeWhile p).all p = true := by
  induction l with
  | nil => rfl
  | cons c t ih =>
    simp only [List.takeWhile_cons]
    by_cases h : p c = true
    · simp [h, ih]
    · simp only [Bool.not_eq_true] at h
      simp [h]

theorem take_append_len (a b : Str) (k : Nat) :
    (a ++ b).take (a.length + k) = a ++ b.take k := by
  induction a with
  | nil => simp
  | cons c t ih =>
    simp only [List.cons_append, List.length_cons]
    rw [Nat.succ_add]
    simp only [List.take_succ_cons]
    rw [ih]

/-- A nonempty digit run headed by a non-digit-free prefix: the first digit
run of `only <d><rest>` is exactly `d`. -/
theorem firstDigitRun_shape {d rest : Str} (hd : ¬ d = [])
    (hdig : d.all isDigitChar = true)
    (hrest : ∀ c, rest.head? = some c → isDigitChar c = false) :
    firstDigitRun ("only ".data ++ (d ++ rest)) = d := by
  unfold firstDigitRun
  rw [dropWhile_append_of_all (d ++ rest) (by decide)]
  have hdc : (d ++ rest).dropWhile (fun c => !isDigitChar c) = d ++ rest := by
    apply dropWhile_noop_head
    intro c hc
    cases d with
    | nil => exact absurd rfl hd
    | cons c0 t0 =>
      have hcc : c0 = c := by simpa using hc
      subst hcc
      have : isDigitChar c0 = true :=
        List.all_eq_true.mp hdig c0 (List.mem_cons_self c0 t0)
      simp [this]
  rw [hdc]
  exact takeWhile_append_of_all hdig hrest

theorem stripPre_eq {p l r : Str} (h : stripPre p l = some r) : l = p ++ r := by
  unfold stripPre at h
  by_cases hp : p.isPrefixOf l = true
  · rw [if_pos hp] at h
    have hr : l.drop p.length = r := by simpa using h
    have hpre : p <+: l := List.isPrefixOf_iff_prefix.mp hp
    have htake : p = l.take p.length := List.prefix_iff_eq_take.mp hpre
    calc l = l.take p.length ++ l.drop p.length := (List.take_append_drop _ l).symm
    _ = p ++ r := by rw [← htake, hr]
  · rw [if_neg hp] at h
    simp at h

theorem stripPre_append (p r : Str) : stripPre p (p ++ r) = some r := by
  unfold stripPre
  rw [if_pos (List.isPrefixOf_iff_prefix.mpr (List.prefix_append p r))]
  rw [List.drop_left]

/-- Decomposition of a greedy match of the only-left pattern: the matched
span is `only <digits> left` optionally followed by ` in stock`. -/
theorem onlyAt_decomp {l : Str} {len : Nat} (h : onlyAt l = some len) :
    ∃ d suf : Str, ¬ d = [] ∧ d.all isDigitChar = true ∧
      (suf = [] ∨ suf = " in stock".data) ∧
      l.take len = "only ".data ++ (d ++ (" left".data ++ suf)) := by
  unfold onlyAt at h
  cases h1 : stripPre "only ".data l with
  | none => rw [h1] at h; simp at h
  | some r1 =>
    rw [h1] at h
    have h2 : (if (r1.takeWhile isDigitChar).isEmpty then none
        else match stripPre " left".data (r1.drop (r1.takeWhile isDigitChar).length) with
        | none => none
        | some r3 =>
          if " in stock".data.isPrefixOf r3 then
            some (10 + (r1.takeWhile isDigitChar).length + 9)
          else some (10 + (r1.takeWhile isDigitChar).length)) = some len := h
    by_cases hde : (r1.takeWhile isDigitChar).isEmpty = true
    · rw [if_pos hde] at h2; simp at h2
    · rw [if_neg hde] at h2
      cases h3 : stripPre " left".data (r1.drop (r1.takeWhile isDigitChar).length) with
      | none => rw [h3] at h2; simp at h2
      | some r3 =>
        rw [h3] at h2
        have h4 : (if " in stock".data.isPrefixOf r3 then
            some (10 + (r1.takeWhile isDigitChar).length + 9)
          else some (10 + (r1.takeWhile isDigitChar).length)) = some len := h2
        have hl : l = "only ".data ++ r1 := stripPre_eq h1
        have hr1 : r1 = r1.takeWhile isDigitChar ++ r1.drop (r1.takeWhile isDigitChar).length := by
          have htk : r1.takeWhile isDigitChar = r1.take (r1.takeWhile isDigitChar).length :=
            List.prefix_iff_eq_take.mp (List.takeWhile_prefix isDigitChar)
          calc r1 = r1.take (r1.takeWhile isDigitChar).length ++
              r1.drop (r1.takeWhile isDigitChar).length := (List.take_append_drop _ r1).symm
          _ = _ := by rw [← htk]
        have hr3 : r1.drop (r1.takeWhile isDigitChar).length = " left".data ++ r3 :=
          stripPre_eq h3
        have hdne : ¬ r1.takeWhile isDigitChar = [] := by
          intro hc
          rw [hc] at hde
          exact hde rfl
        have hdall : (r1.takeWhile isDigitChar).all isDigitChar = true :=
          all_takeWhile_pred isDigitChar r1
        have hTT : (r1.takeWhile isDigitChar ++ (" left".data ++ r3)).takeWhile isDigitChar
            = r1.takeWhile isDigitChar := by
          apply takeWhile_append_of_all hdall
          intro c hc
          rw [head?_append_left r3 (by decide)] at hc
          have hcc : (' ' : Char) = c := by simpa using hc
          rw [← hcc]
          decide
        by_cases hin : " in stock".data.isPrefixOf r3 = true
        · rw [if_pos hin] at h4
          have hlen : len = 10 + (r1.takeWhile isDigitChar).length + 9 := by
            simpa using h4.symm
          refine ⟨r1.takeWhile isDigitChar, " in stock".data, hdne, hdall, Or.inr rfl, ?_⟩
          have hr3take : r3.take 9 = " in stock".data := by
            have := List.prefix_iff_eq_take.mp (List.isPrefixOf_iff_prefix.mp hin)
            exact this.symm
          have hlen2 : len = "only ".data.length +
              ((r1.takeWhile isDigitChar).length + (" left".data.length + 9)) := by
            rw [hlen]
            have e1 : "only ".data.length = 5 := rfl
            have e2 : " left".data.length = 5 := rfl
            rw [e1, e2]
            omega
          rw [hl, hr1, hr3, hlen2, take_append_len, take_append_len, take_append_len,
            hr3take, hTT]
        · rw [if_neg hin] at h4
          have hlen : len = 10 + (r1.takeWhile isDigitChar).length := by
            simpa using h4.symm
          refine ⟨r1.takeWhile isDigitChar, [], hdne, hdall, Or.inl rfl, ?_⟩
          have hlen2 : len = "only ".data.length +
              ((r1.takeWhile isDigitChar).length + (" left".data.length + 0)) := by
            rw [hlen]
            have e1 : "only ".data.length = 5 := rfl
            have e2 : " left".data.length = 5 := rfl
            rw [e1, e2]
            omega
          rw [hl, hr1, hr3, hlen2, take_append_len, take_append_len, take_append_len]
          rw [List.take_zero, hTT]

theorem findOnly_spec : ∀ {l : Str} {se : Nat × Nat}, findOnly l = some se →
    onlyAt (l.drop se.1) = some (se.2 - se.1) := by
  intro l
  induction l with
  | nil =>
    intro se h
    simp [findOnly] at h
  | cons c rest ih =>
    intro se h
    unfold findOnly at h
    cases ho : onlyAt (c :: rest) with
    | some len =>
      rw [ho] at h
      have hse : (0, len) = se := by simpa using h
      subst hse
      simpa using ho
    | none =>
      rw [ho] at h
      cases hf : findOnly rest with
      | none => rw [hf] at h; simp at h
      | some se0 =>
        rw [hf] at h
        have hse : (se0.1 + 1, se0.2 + 1) = se := by simpa using h
        subst hse
        have := ih hf
        simpa [Nat.succ_sub_succ] using this

theorem hasOnlyCore_of_head {l : Str} (hne : ¬ l = [])
    (h : (onlyCoreAt l).isSome = true) : hasOnlyCore l = true := by
  cases l with
  | nil => exact absurd rfl hne
  | cons c rest =>
    unfold hasOnlyCore
    simp [h]

theorem onlyCoreAt_shape {d suf : Str} (hd : ¬ d = [])
    (hdig : d.all isDigitChar = true) :
    onlyCoreAt ("only ".data ++ (d ++ (" left".data ++ suf))) =
      some (10 + d.length) := by
  have htw : (d ++ (" left".data ++ suf)).takeWhile isDigitChar = d := by
    apply takeWhile_append_of_all hdig
    intro c hc
    rw [head?_append_left suf (by decide)] at hc
    have hcc : (' ' : Char) = c := by simpa using hc
    rw [← hcc]
    decide
  unfold onlyCoreAt
  rw [stripPre_append]
  show (if ((d ++ (" left".data ++ suf)).takeWhile isDigitChar).isEmpty = true then none
      else if " left".data.isPrefixOf ((d ++ (" left".data ++ suf)).drop
          ((d ++ (" left".data ++ suf)).takeWhile isDigitChar).length) = true then
        some (10 + ((d ++ (" left".data ++ suf)).takeWhile isDigitChar).length)
      else none) = some (10 + d.length)
  rw [htw]
  have hde : d.isEmpty = false := by
    cases d with
    | nil => exact absurd rfl hd
    | cons x xs => rfl
  rw [hde]
  simp only [Bool.false_eq_true, if_false]
  rw [List.drop_left]
  rw [List.isPrefixOf_iff_prefix.mpr (List.prefix_append _ suf)]
  simp

theorem hasOnlyCore_of_shape {d suf : Str} (hd : ¬ d = [])
    (hdig : d.all isDigitChar = true) :
    hasOnlyCore ("only ".data ++ (d ++ (" left".data ++ suf))) = true := by
  apply hasOnlyCore_of_head (by simp)
  rw [onlyCoreAt_shape hd hdig]
  rfl

theorem classify_of_lower_cu {phrase : Str}
    (h : lowerStr phrase = "currently unavailable".data) :
    classify phrase = "Currently unavailable".data := by
  have h1 : hasOnlyCore "currently unavailable".data = false := by decide
  have h2 : containsSub "currently unavailable".data
      "currently unavailable".data = true := by decide
  unfold classify
  rw [h]
  simp [h1, h2]

theorem classify_of_lower_oos {phrase : Str}
    (h : lowerStr phrase = "out of stock".data) :
    classify phrase = "Out of stock".data := by
  have h1 : hasOnlyCore "out of stock".data = false := by decide
  have h2 : containsSub "currently unavailable".data "out of stock".data = false := by
    decide
  have h3 : containsSub "out of stock".data "out of stock".data = true := by decide
  unfold classify
  rw [h]
  simp [h1, h2, h3]

theorem classify_of_lower_is {phrase : Str}
    (h : lowerStr phrase = "in stock".data) :
    classify phrase = "In stock".data := by
  have h1 : hasOnlyCore "in stock".data = false := by decide
  have h2 : containsSub "currently unavailable".data "in stock".data = false := by decide
  have h3 : containsSub "out of stock".data "in stock".data = false := by decide
  have h4 : containsSub "in stock".data "in stock".data = true := by decide
  unfold classify
  rw [h]
  simp [h1, h2, h3, h4]

theorem classify_of_lower_only {phrase d suf : Str} (hd : ¬ d = [])
    (hdig : d.all isDigitChar = true)
    (h : lowerStr phrase = "only ".data ++ (d ++ (" left".data ++ suf))) :
    classify phrase =
      "Only ".data ++ firstDigitRun phrase ++ " left in stock".data ∧
    ¬ firstDigitRun phrase = [] ∧
    (firstDigitRun phrase).all isDigitChar = true := by
  have hcore : hasOnlyCore (lowerStr phrase) = true := by
    rw [h]
    exact hasOnlyCore_of_shape hd hdig
  have hrun : lowerStr (firstDigitRun phrase) = d := by
    rw [← firstDigitRun_map_lower, h]
    apply firstDigitRun_shape hd hdig
    intro c hc
    rw [head?_append_left suf (by decide)] at hc
    have hcc : (' ' : Char) = c := by simpa using hc
    rw [← hcc]
    decide
  refine ⟨?_, ?_, ?_⟩
  · unfold classify
    simp [hcore]
  · intro hcontra
    rw [hcontra] at hrun
    exact hd (by simpa [lowerStr] using hrun.symm)
  · have hfd : firstDigitRun phrase =
        (phrase.dropWhile (fun c => !isDigitChar c)).takeWhile isDigitChar := rfl
    rw [hfd]
    exact all_takeWhile_pred isDigitChar _

/-- Every phrase returned by `_match_phrase` is one of the four canonical
availability phrases. -/
theorem matchPhrase_canonical {src p : Str} (h : matchPhrase src = some p) :
    isCanonicalAvail p := by
  unfold matchPhrase at h
  by_cases hs : src.isEmpty = true
  · rw [if_pos hs] at h
    simp at h
  · rw [if_neg hs] at h
    cases h1 : findSub "currently unavailable".data (lowerStr (collapseWs src)) with
    | some i =>
      rw [h1] at h
      have h2 : some (classify (stripTrail (pyStrip
          (sliceOf (collapseWs src) i 21)))) = some p := h
      have hp : classify (stripTrail (pyStrip (sliceOf (collapseWs src) i 21))) = p := by
        simpa using h2
      have hlow : lowerStr (sliceOf (collapseWs src) i 21) =
          "currently unavailable".data := by
        have h3 := findSub_slice h1
        rw [show ("currently unavailable".data).length = 21 from rfl] at h3
        unfold lowerStr at h3 ⊢
        rw [sliceOf_map] at h3
        exact h3
      have hstr : stripTrail (pyStrip (sliceOf (collapseWs src) i 21)) =
          sliceOf (collapseWs src) i 21 :=
        phrase_strip_noop hlow (by decide) (by decide)
      rw [hstr, classify_of_lower_cu hlow] at hp
      right; right; left
      exact hp.symm
    | none =>
      rw [h1] at h
      cases h2 : findSub "out of stock".data (lowerStr (collapseWs src)) with
      | some i =>
        rw [h2] at h
        have h3 : some (classify (stripTrail (pyStrip
            (sliceOf (collapseWs src) i 12)))) = some p := h
        have hp : classify (stripTrail (pyStrip (sliceOf (collapseWs src) i 12))) = p := by
          simpa using h3
        have hlow : lowerStr (sliceOf (collapseWs src) i 12) = "out of stock".data := by
          have h4 := findSub_slice h2
          rw [show ("out of stock".data).length = 12 from rfl] at h4
          unfold lowerStr at h4 ⊢
          rw [sliceOf_map] at h4
          exact h4
        have hstr : stripTrail (pyStrip (sliceOf (collapseWs src) i 12)) =
            sliceOf (collapseWs src) i 12 :=
          phrase_strip_noop hlow (by decide) (by decide)
        rw [hstr, classify_of_lower_oos hlow] at hp
        right; left
        exact hp.symm
      | none =>
        rw [h2] at h
        cases h3 : findOnly (lowerStr (collapseWs src)) with
        | some se =>
          rw [h3] at h
          have h4 : some (classify (stripTrail (pyStrip
              (sliceOf (collapseWs src) se.1 (se.2 - se.1))))) = some p := h
          have hp : classify (stripTrail (pyStrip
              (sliceOf (collapseWs src) se.1 (se.2 - se.1)))) = p := by
            simpa using h4
          obtain ⟨d, suf, hd, hdig, hsuf, htake⟩ := onlyAt_decomp (findOnly_spec h3)
          have hlow : lowerStr (sliceOf (collapseWs src) se.1 (se.2 - se.1)) =
              "only ".data ++ (d ++ (" left".data ++ suf)) := by
            unfold lowerStr
            rw [← sliceOf_map]
            exact htake
          have hhead : (("only ".data ++ (d ++ (" left".data ++ suf))).head?).all
              (fun c => !wsChar c) = true := by
            rw [head?_append_left _ (by decide)]
            decide
          have hlast : (("only ".data ++ (d ++ (" left".data ++ suf))).getLast?).all
              (fun c => !trailChar c) = true := by
            rw [getLast?_append_right _ (by simp [hd])]
            rw [getLast?_append_right _ (by simp)]
            rcases hsuf with hsuf | hsuf
            · subst hsuf
              decide
            · subst hsuf
              rw [getLast?_append_right _ (by decide)]
              decide
          have hstr : stripTrail (pyStrip
              (sliceOf (collapseWs src) se.1 (se.2 - se.1))) =
              sliceOf (collapseWs src) se.1 (se.2 - se.1) :=
            phrase_strip_noop hlow hhead hlast
          obtain ⟨hcls, hne, hall⟩ := classify_of_lower_only hd hdig hlow
          rw [hstr, hcls] at hp
          right; right; right
          exact ⟨firstDigitRun (sliceOf (collapseWs src) se.1 (se.2 - se.1)),
            hne, hall, hp.symm⟩
        | none =>
          rw [h3] at h
          cases h4 : findSub "in stock".data (lowerStr (collapseWs src)) with
          | some i =>
            rw [h4] at h
            have h5 : some (classify (stripTrail (pyStrip
                (sliceOf (collapseWs src) i 8)))) = some p := h
            have hp : classify (stripTrail (pyStrip
                (sliceOf (collapseWs src) i 8))) = p := by
              simpa using h5
            have hlow : lowerStr (sliceOf (collapseWs src) i 8) = "in stock".data := by
              have h6 := findSub_slice h4
              rw [show ("in stock".data).length = 8 from rfl] at h6
              unfold lowerStr at h6 ⊢
              rw [sliceOf_map] at h6
              exact h6
            have hstr : stripTrail (pyStrip (sliceOf (collapseWs src) i 8)) =
                sliceOf (collapseWs src) i 8 :=
              phrase_strip_noop hlow (by decide) (by decide)
            rw [hstr, classify_of_lower_is hlow] at hp
            left
            exact hp.symm
          | none =>
            rw [h4] at h
            simp at h

theorem firstNodePhrase_canonical : ∀ {ns : List (Option Str)} {p : Str},
    firstNodePhrase ns = some p → isCanonicalAvail p := by
  intro ns
  induction ns with
  | nil =>
    intro p h
    simp [firstNodePhrase] at h
  | cons o rest ih =>
    intro p h
    cases o with
    | none =>
      unfold firstNodePhrase at h
      exact ih h
    | some t =>
      unfold firstNodePhrase at h
      cases hm : matchPhrase t with
      | some q =>
        rw [hm] at h
        have hq : q = p := by simpa using h
        subst hq
        exact matchPhrase_canonical hm
      | none =>
        rw [hm] at h
        exact ih h

/-- C5.  Availability extraction returns `none` or exactly one of the four
canonical phrases (`In stock`, `Only N left in stock` with N the extracted
digit run, `Out of stock`, `Currently unavailable`), trying structured nodes
in selector order first and whole-page text last; in particular the text
`Only 3 left in stock, order soon` yields exactly `Only 3 left in stock`,
`Currently unavailable` matches exactly, a document with no matching phrase
yields `none`, and a structured node wins over the page text. -/
theorem availability_canonical (d : Doc) :
    (extractAvailabilityExact d = none ∨
      ∃ p, extractAvailabilityExact d = some p ∧ isCanonicalAvail p) ∧
    extractAvailabilityExact ⟨[none, none, none, none],
      "Only 3 left in stock, order soon".data⟩ = some "Only 3 left in stock".data ∧
    extractAvailabilityExact ⟨[none, none, none, none],
      "Currently unavailable".data⟩ = some "Currently unavailable".data ∧
    extractAvailabilityExact ⟨[some "hello world".data, none, none, none],
      "nothing to see here".data⟩ = none ∧
    extractAvailabilityExact ⟨[some "Currently unavailable.".data, none, none, none],
      "In stock".data⟩ = some "Currently unavailable".data := by
  refine ⟨?_, by decide, by decide, by decide, by decide⟩
  unfold extractAvailabilityExact
  cases hn : firstNodePhrase d.nodes with
  | some p =>
    right
    exact ⟨p, rfl, firstNodePhrase_canonical hn⟩
  | none =>
    cases hm : matchPhrase d.pageText with
    | none =>
      left
      rfl
    | some p =>
      right
      exact ⟨p, rfl, matchPhrase_canonical hm⟩

end Scraper

